import Mathlib

set_option maxHeartbeats 1000000

/-!
Verification model of `src/src/lock-scroll.ts` (the `LockScroll` class and its
module-level state).  JavaScript function references are modelled by numeric
identities allocated in order of creation; identity `0` is reserved for the
static `LockScroll.preventDefault` function, and every `.bind(this)` call or
closure creation allocates a fresh identity.  The DOM is abstracted to the two
primitives the code consumes: a selector query and a containment test.
-/

namespace LockScrollModel

/-- Event types used by the library. -/
inductive EvType where
  | touchstart
  | touchend
  | touchmove
deriving DecidableEq, Repr

/-- DOM elements are identified by a numeric identity. -/
abbrev Elem := Nat

/-- Listener identities model JavaScript function references. -/
abbrev ListenerId := Nat

/-- A `LockScroll` instance: object identity plus its `selector` field.
`selector = none` models the field being left `undefined`: the constructor
(src/src/lock-scroll.ts lines 74-78) assigns it only when `opt.selector` is
truthy. -/
structure Inst where
  id : Nat
  selector : Option String
deriving DecidableEq, Repr

/-- The pair of closures stored in `overRangeEventMap` for one element
(src/src/lock-scroll.ts lines 209-212). -/
structure TrackerPair where
  touchStartEvent : ListenerId
  touchMoveEvent : ListenerId
deriving DecidableEq, Repr

/-- Process-wide mutable state of the module: the `eventInit` flag, the
`lockedList` set (JavaScript `Set`, insertion ordered), `overRangeEventMap`,
the per-element DOM listener registrations, the document-level listener
registrations, and the allocation counter for fresh function identities. -/
structure State where
  eventInit : Bool
  lockedList : List Inst
  overRangeEventMap : List (Elem × TrackerPair)
  elListeners : List (Elem × List (EvType × ListenerId))
  docListeners : List (EvType × ListenerId)
  nextId : ListenerId
deriving DecidableEq, Repr

/-- External environment: whether a document exists (`isDocumentExist`,
src lines 66-68), `document.querySelectorAll`, and `Element.contains`. -/
structure Env where
  hasDoc : Bool
  qsa : String → List Elem
  contains : Elem → Elem → Bool

/-- Semantics of `addEventListener` on one target: a listener already
registered for the same type with the same function reference is not added
again; otherwise it is appended. -/
def addListener (l : List (EvType × ListenerId)) (t : EvType) (j : ListenerId) :
    List (EvType × ListenerId) :=
  if (t, j) ∈ l then l else l ++ [(t, j)]

/-- Semantics of `removeEventListener`: drop the registration matching the
given type and function reference; removing an absent listener is a no-op. -/
def removeListener (l : List (EvType × ListenerId)) (t : EvType) (j : ListenerId) :
    List (EvType × ListenerId) :=
  l.filter (fun p => p ≠ (t, j))

/-- Association-list lookup for per-element listener lists. -/
def assocGet (ls : List (Elem × List (EvType × ListenerId))) (e : Elem) :
    Option (List (EvType × ListenerId)) :=
  match ls with
  | [] => none
  | (k, v) :: rest => if k = e then some v else assocGet rest e

/-- Listener list of an element (elements start with no listeners). -/
def getLs (ls : List (Elem × List (EvType × ListenerId))) (e : Elem) :
    List (EvType × ListenerId) :=
  (assocGet ls e).getD []

/-- Update of an element's listener list. -/
def setLs (ls : List (Elem × List (EvType × ListenerId))) (e : Elem)
    (v : List (EvType × ListenerId)) : List (Elem × List (EvType × ListenerId)) :=
  match ls with
  | [] => [(e, v)]
  | (k, w) :: rest => if k = e then (e, v) :: rest else (k, w) :: setLs rest e v

/-- JavaScript `Set.add`: append if absent. -/
def setAdd (l : List Inst) (x : Inst) : List Inst :=
  if x ∈ l then l else l ++ [x]

/-- JavaScript `Set.delete`. -/
def setDelete (l : List Inst) (x : Inst) : List Inst :=
  l.filter (fun y => y ≠ x)

/-- JavaScript `Map.get` on `overRangeEventMap`. -/
def mapGet (m : List (Elem × TrackerPair)) (e : Elem) : Option TrackerPair :=
  match m with
  | [] => none
  | (k, v) :: rest => if k = e then some v else mapGet rest e

/-- JavaScript `Map.set`: overwrite in place or append. -/
def mapSet (m : List (Elem × TrackerPair)) (e : Elem) (p : TrackerPair) :
    List (Elem × TrackerPair) :=
  match m with
  | [] => [(e, p)]
  | (k, w) :: rest => if k = e then (e, p) :: rest else (k, w) :: mapSet rest e p

/-- JavaScript `Map.delete`. -/
def mapDelete (m : List (Elem × TrackerPair)) (e : Elem) : List (Elem × TrackerPair) :=
  m.filter (fun q => q.1 ≠ e)

/-- Embeds `getCurScrollEls` (src lines 249-253): `this.selector` is truthy
only when it was set to a non-empty string. -/
def getCurScrollEls (qsa : String → List Elem) (i : Inst) : List Elem :=
  match i.selector with
  | some s => if s = "" then [] else qsa s
  | none => []

/-- Truthiness of the value returned by `selectors.find((s) => s === curSelector)`
in `getScrollEls` (src line 260): when found, the value is `curSelector` itself,
which is falsy if it is `undefined` or the empty string. -/
def selTruthy : Option String → Bool
  | none => false
  | some s => decide (¬ s = "")

/-- The selector-collection loop of `getScrollEls` (src lines 257-264): an
already-present selector is skipped only when the found value is truthy. -/
def dedupFirstSeen (l : List (Option String)) : List (Option String) :=
  l.foldl (fun acc s => if s ∈ acc ∧ selTruthy s = true then acc else acc ++ [s]) []

/-- JavaScript `Array.prototype.join(',')`: `undefined` entries become empty
strings. -/
def joinSels (sels : List (Option String)) : String :=
  String.intercalate (",") (sels.map (fun o => o.getD ("")))

/-- The compound selector string built by `getScrollEls` (src line 265). -/
def selectorStrOf (locked : List Inst) : String :=
  joinSels (dedupFirstSeen (locked.map (fun i => i.selector)))

/-- The selector string actually passed to `document.querySelectorAll` by
`getScrollEls`, or `none` when the empty-string guard skips the query
(src line 267). -/
def queriedSelector (locked : List Inst) : Option String :=
  if selectorStrOf locked = "" then none else some (selectorStrOf locked)

/-- Embeds the static `getScrollEls` (src lines 256-268). -/
def getScrollEls (qsa : String → List Elem) (locked : List Inst) : List Elem :=
  match queriedSelector locked with
  | none => []
  | some s => qsa s

/-- Embeds the static document-level `touchmove` handler `preventDefault`
(src lines 234-246).  Returns `true` iff `e.preventDefault()` is called. -/
def preventDefault (env : Env) (locked : List Inst) (target : Elem) : Bool :=
  let scrollEls := getScrollEls env.qsa locked
  let isContain := scrollEls.any (fun el => env.contains el target)
  if isContain = true then false else true

/-- Embeds `elTouchStart` (src lines 117-122). -/
def elTouchStart (st : State) : State :=
  if st.eventInit = false then
    { st with docListeners := addListener st.docListeners EvType.touchmove 0,
              eventInit := true }
  else st

/-- Embeds `elTouchEnd` (src lines 124-129). -/
def elTouchEnd (st : State) : State :=
  if st.eventInit = true then
    { st with docListeners := removeListener st.docListeners EvType.touchmove 0,
              eventInit := false }
  else st

/-- Embeds `bindTouchEvents` (src lines 132-140): two fresh bound functions
are created once and attached to every matched element. -/
def bindTouchEvents (qsa : String → List Elem) (i : Inst) (st : State) : State :=
  let els := getCurScrollEls qsa i
  let tsId := st.nextId
  let teId := st.nextId + 1
  { st with
    elListeners := els.foldl
      (fun acc e => setLs acc e
        (addListener (addListener (getLs acc e) EvType.touchstart tsId) EvType.touchend teId))
      st.elListeners,
    nextId := st.nextId + 2 }

/-- Embeds `unbindTouchEvents` (src lines 143-153): two fresh bound functions
are created (new identities, distinct from the ones attached by
`bindTouchEvents`), `removeEventListener` is called with them, and finally the
`touchEnd` transition is run as a safety net. -/
def unbindTouchEvents (qsa : String → List Elem) (i : Inst) (st : State) : State :=
  let els := getCurScrollEls qsa i
  let tsId := st.nextId
  let teId := st.nextId + 1
  let st1 := { st with
    elListeners := els.foldl
      (fun acc e => setLs acc e
        (removeListener (removeListener (getLs acc e) EvType.touchstart tsId) EvType.touchend teId))
      st.elListeners,
    nextId := st.nextId + 2 }
  elTouchEnd st1

/-- One iteration of the `forEach` in `lockScrollWhenOverRange`
(src lines 158-213): fresh `touchStartEvent` and `touchMoveEvent` closures are
created for the element, attached, and stored in `overRangeEventMap`. -/
def overRangeAttachStep (acc : State) (e : Elem) : State :=
  let tsId := acc.nextId
  let tmId := acc.nextId + 1
  { acc with
    elListeners := setLs acc.elListeners e
      (addListener (addListener (getLs acc.elListeners e) EvType.touchstart tsId)
        EvType.touchmove tmId),
    overRangeEventMap := mapSet acc.overRangeEventMap e ⟨tsId, tmId⟩,
    nextId := acc.nextId + 2 }

/-- Embeds `lockScrollWhenOverRange` (src lines 156-214). -/
def lockScrollWhenOverRange (qsa : String → List Elem) (i : Inst) (st : State) : State :=
  (getCurScrollEls qsa i).foldl overRangeAttachStep st

/-- One iteration of the `forEach` in `unlockScrollWhenOverRange`
(src lines 219-230): the stored closure pair, if any, is removed from the
element and the map entry is deleted. -/
def overRangeDetachStep (acc : State) (e : Elem) : State :=
  match mapGet acc.overRangeEventMap e with
  | some p =>
    { acc with
      elListeners := setLs acc.elListeners e
        (removeListener (removeListener (getLs acc.elListeners e)
          EvType.touchstart p.touchStartEvent) EvType.touchmove p.touchMoveEvent),
      overRangeEventMap := mapDelete acc.overRangeEventMap e }
  | none => { acc with overRangeEventMap := mapDelete acc.overRangeEventMap e }

/-- Embeds `unlockScrollWhenOverRange` (src lines 217-231). -/
def unlockScrollWhenOverRange (qsa : String → List Elem) (i : Inst) (st : State) : State :=
  (getCurScrollEls qsa i).foldl overRangeDetachStep st

/-- Embeds `lock` (src lines 98-106). -/
def lock (env : Env) (i : Inst) (st : State) : State :=
  let st1 := { st with lockedList := setAdd st.lockedList i }
  if env.hasDoc = false then st1
  else lockScrollWhenOverRange env.qsa i (bindTouchEvents env.qsa i st1)

/-- Embeds `unlock` (src lines 108-115). -/
def unlock (env : Env) (i : Inst) (st : State) : State :=
  let st1 := { st with lockedList := setDelete st.lockedList i }
  if env.hasDoc = false then st1
  else unlockScrollWhenOverRange env.qsa i (unbindTouchEvents env.qsa i st1)

/-- Externally triggered events: the two public lifecycle calls and the
gesture transitions run by the listeners `bindTouchEvents` attaches. -/
inductive Ev where
  | lockEv (i : Inst)
  | unlockEv (i : Inst)
  | touchStartEv
  | touchEndEv
deriving DecidableEq, Repr

/-- One step of the event machine. -/
def step (env : Env) (st : State) : Ev → State
  | Ev.lockEv i => lock env i st
  | Ev.unlockEv i => unlock env i st
  | Ev.touchStartEv => elTouchStart st
  | Ev.touchEndEv => elTouchEnd st

/-- Run of a sequence of events. -/
def run (env : Env) (st : State) (evs : List Ev) : State :=
  evs.foldl (step env) st

/-- Initial module state: `eventInit = false`, all collections empty; the
allocation counter starts at 1 because identity 0 is the static
`LockScroll.preventDefault` reference. -/
def st0 : State :=
  { eventInit := false, lockedList := [], overRangeEventMap := [],
    elListeners := [], docListeners := [], nextId := 1 }

/-- Updates the "was the most recent lifecycle call for `i` a lock" flag. -/
def lastLockUpd (i : Inst) (acc : Bool) : Ev → Bool
  | Ev.lockEv j => if j = i then true else acc
  | Ev.unlockEv j => if j = i then false else acc
  | Ev.touchStartEv => acc
  | Ev.touchEndEv => acc

/-- Whether the most recent lifecycle call for `i` in `evs` was a lock. -/
def lastLock (i : Inst) (evs : List Ev) : Bool :=
  evs.foldl (lastLockUpd i) false

/-- The touch coordinates of one contact point of a touch event. -/
structure TouchPoint where
  clientX : Int
  clientY : Int
deriving DecidableEq, Repr

/-- Scroll geometry of an element, read by the boundary tracker. -/
structure ScrollGeom where
  scrollTop : Int
  scrollLeft : Int
  clientHeight : Int
  clientWidth : Int
  scrollHeight : Int
  scrollWidth : Int
deriving DecidableEq, Repr

/-- Math.abs on integers. -/
def mabs (x : Int) : Int := if x < 0 then -x else x

/-- Embeds the `touchStartEvent` closure (src lines 160-167): returns the
`touch` record's origin fields after the event; they change only when the
event has exactly one target touch.  `none` models fields still `undefined`. -/
def trackerTouchStart (touch : Option (Int × Int)) (targetTouches : List TouchPoint) :
    Option (Int × Int) :=
  match targetTouches with
  | [t] => some (t.clientX, t.clientY)
  | _ => touch

/-- Embeds the `touchMoveEvent` closure (src lines 170-201); returns `true`
iff `e.preventDefault()` is called.  When the origin was never recorded the
JavaScript subtraction yields `NaN`, every comparison on it is false and no
branch calls `preventDefault`; that is the `none` case.  The closure never
writes the origin. -/
def trackerTouchMove (touch : Option (Int × Int)) (el : ScrollGeom)
    (targetTouches : List TouchPoint) : Bool :=
  match targetTouches with
  | [t] =>
    match touch with
    | some o =>
      let offsetX := t.clientX - o.1
      let offsetY := t.clientY - o.2
      let absOffsetX := mabs offsetX
      let absOffsetY := mabs offsetY
      if absOffsetX < 3 ∧ absOffsetY < 3 then true
      else if absOffsetY > absOffsetX then
        if (el.scrollTop ≤ 0 ∧ offsetY > 0) ∨
            (el.scrollTop + el.clientHeight ≥ el.scrollHeight ∧ offsetY < 0) then true
        else false
      else
        if (el.scrollLeft ≤ 0 ∧ offsetX > 0) ∨
            (el.scrollLeft + el.clientWidth ≥ el.scrollWidth ∧ offsetX < 0) then true
        else false
    | none => false
  | _ => false

/-- Embeds the constructor (src lines 74-78).  The argument is `none` when the
constructor is called with no argument at all, so the default parameter
`{ selector: '.can-scroll' }` applies; `some o` passes an options object whose
`selector` property is `o` (`none` meaning absent or `undefined`).  The result
is the value of the `selector` field after construction (`none` = left
unset). -/
def mkSelector (opt : Option (Option String)) : Option String :=
  let o := opt.getD (some (".can-scroll"))
  match o with
  | some s => if s = "" then none else some s
  | none => none

/-- Modelled from the spec's words, for comparison with `dedupFirstSeen`:
collect distinct values in first-seen order, deduplicating by exact
equality. -/
def specDistinctFirstSeen : List (Option String) → List (Option String)
  | [] => []
  | s :: rest => s :: specDistinctFirstSeen (rest.filter (fun x => x ≠ s))
termination_by l => l.length
decreasing_by
  simp only [List.length_cons]
  exact Nat.lt_succ_of_le (List.length_filter_le _ _)

/-- Invariant relating the document-level listener list to the `eventInit`
flag: the static `preventDefault` canceller is attached exactly while the flag
is set. -/
def DocOk (st : State) : Prop :=
  st.docListeners = if st.eventInit = true then [(EvType.touchmove, 0)] else []

/-- Invariant of the allocation counter: every function identity attached to
an element was allocated before `nextId`. -/
def IdsOk (st : State) : Prop :=
  ∀ q ∈ st.elListeners, ∀ p ∈ q.2, p.2 < st.nextId

/-- Observational equality of the teardown-relevant state: registry,
interceptor flag, document listeners, bookkeeping map, and each element's
listener list (the allocation counter is excluded, since it only names fresh
identities). -/
def TeardownEq (a b : State) : Prop :=
  a.lockedList = b.lockedList ∧ a.eventInit = b.eventInit ∧
  a.docListeners = b.docListeners ∧ a.overRangeEventMap = b.overRangeEventMap ∧
  ∀ e, getLs a.elListeners e = getLs b.elListeners e

/-- Concrete witness environment: a document exists, every selector query
resolves to the single element 7, containment is element equality. -/
def envW : Env :=
  { hasDoc := true, qsa := fun _ => [7], contains := fun a b => decide (a = b) }

/-- Concrete witness instances. -/
def instA : Inst := { id := 0, selector := some (".can-scroll") }

/-- A second instance with the same selector as `instA` but its own object
identity. -/
def instB : Inst := { id := 1, selector := some (".can-scroll") }

/-- Concrete witness scroll geometry, taken from the spec's worked example:
scrolled to the top, 300px viewport over 900px of content. -/
def geomW : ScrollGeom :=
  { scrollTop := 0, scrollLeft := 0, clientHeight := 300, clientWidth := 500,
    scrollHeight := 900, scrollWidth := 500 }

lemma mem_addListener {l : List (EvType × ListenerId)} {t : EvType} {j : ListenerId}
    {p : EvType × ListenerId} : p ∈ addListener l t j ↔ p ∈ l ∨ p = (t, j) := by
  unfold addListener
  split_ifs with h
  · constructor
    · exact fun hp => Or.inl hp
    · rintro (hp | rfl)
      · exact hp
      · exact h
  · simp [List.mem_append]

lemma mem_removeListener {l : List (EvType × ListenerId)} {t : EvType} {j : ListenerId}
    {p : EvType × ListenerId} : p ∈ removeListener l t j ↔ p ∈ l ∧ p ≠ (t, j) := by
  simp [removeListener, List.mem_filter]

lemma removeListener_eq_self {l : List (EvType × ListenerId)} {t : EvType}
    {j : ListenerId} (h : (t, j) ∉ l) : removeListener l t j = l := by
  refine List.filter_eq_self.mpr (fun a ha => ?_)
  simp only [decide_eq_true_eq]
  rintro rfl
  exact h ha

lemma not_mem_removeListener {l : List (EvType × ListenerId)} {t : EvType}
    {j : ListenerId} : (t, j) ∉ removeListener l t j := by
  intro h
  exact (mem_removeListener.mp h).2 rfl

lemma not_mem_removeListener_of_not_mem {l : List (EvType × ListenerId)}
    {t u : EvType} {j k : ListenerId} (h : (t, j) ∉ l) :
    (t, j) ∉ removeListener l u k := by
  intro hmem
  exact h (mem_removeListener.mp hmem).1

lemma assocGet_setLs (ls : List (Elem × List (EvType × ListenerId))) (e : Elem)
    (v : List (EvType × ListenerId)) (f : Elem) :
    assocGet (setLs ls e v) f = if f = e then some v else assocGet ls f := by
  induction ls with
  | nil =>
    by_cases h : f = e
    · simp [setLs, assocGet, h]
    · simp [setLs, assocGet, h, if_neg (fun hh : e = f => h hh.symm)]
  | cons q rest ih =>
    obtain ⟨k, w⟩ := q
    by_cases hk : k = e
    · subst hk
      by_cases hf : f = k
      · subst hf
        simp [setLs, assocGet]
      · simp [setLs, assocGet, hf, if_neg (fun hh : k = f => hf hh.symm)]
    · by_cases hf : f = k
      · subst hf
        have hfe : ¬ f = e := fun hh => hk hh
        simp [setLs, assocGet, hk, hfe]
      · simp [setLs, assocGet, hk, if_neg (fun hh : k = f => hf hh.symm), ih]

lemma getLs_setLs (ls : List (Elem × List (EvType × ListenerId))) (e : Elem)
    (v : List (EvType × ListenerId)) (f : Elem) :
    getLs (setLs ls e v) f = if f = e then v else getLs ls f := by
  rw [getLs, assocGet_setLs]
  split <;> rfl

lemma mapGet_mapDelete_self (m : List (Elem × TrackerPair)) (e : Elem) :
    mapGet (mapDelete m e) e = none := by
  induction m with
  | nil => rfl
  | cons q rest ih =>
    obtain ⟨k, w⟩ := q
    by_cases hk : k = e
    · simpa [mapDelete, List.filter_cons, hk] using ih
    · simpa [mapDelete, List.filter_cons, hk, mapGet] using ih

lemma mapGet_mapDelete_ne (m : List (Elem × TrackerPair)) {e f : Elem}
    (h : f ≠ e) : mapGet (mapDelete m e) f = mapGet m f := by
  induction m with
  | nil => rfl
  | cons q rest ih =>
    obtain ⟨k, w⟩ := q
    by_cases hk : k = e
    · subst hk
      have : ¬ k = f := fun hh => h hh.symm
      simpa [mapDelete, List.filter_cons, mapGet, this] using ih
    · by_cases hkf : k = f
      · subst hkf
        simp [mapDelete, List.filter_cons, hk, mapGet]
      · simpa [mapDelete, List.filter_cons, hk, mapGet, hkf] using ih

lemma mapGet_mapDelete_none {m : List (Elem × TrackerPair)} {e f : Elem}
    (h : mapGet m f = none) : mapGet (mapDelete m e) f = none := by
  by_cases hef : f = e
  · subst hef
    exact mapGet_mapDelete_self m f
  · rw [mapGet_mapDelete_ne m hef]
    exact h

lemma mem_setAdd {l : List Inst} {x y : Inst} :
    x ∈ setAdd l y ↔ x ∈ l ∨ x = y := by
  unfold setAdd
  split_ifs with h
  · constructor
    · exact fun hp => Or.inl hp
    · rintro (hp | rfl)
      · exact hp
      · exact h
  · simp [List.mem_append]

lemma setAdd_idem (l : List Inst) (x : Inst) :
    setAdd (setAdd l x) x = setAdd l x := by
  by_cases h : x ∈ l <;> simp [setAdd, h]

lemma mem_setDelete {l : List Inst} {x y : Inst} :
    x ∈ setDelete l y ↔ x ∈ l ∧ x ≠ y := by
  simp [setDelete, List.mem_filter]

lemma setDelete_idem (l : List Inst) (x : Inst) :
    setDelete (setDelete l x) x = setDelete l x :=
  List.filter_eq_self.mpr (fun _ ha => (List.mem_filter.mp ha).2)

lemma elTouchStart_lockedList (st : State) : (elTouchStart st).lockedList = st.lockedList := by
  unfold elTouchStart
  split <;> rfl

lemma elTouchStart_elListeners (st : State) :
    (elTouchStart st).elListeners = st.elListeners := by
  unfold elTouchStart
  split <;> rfl

lemma elTouchStart_overRangeEventMap (st : State) :
    (elTouchStart st).overRangeEventMap = st.overRangeEventMap := by
  unfold elTouchStart
  split <;> rfl

lemma elTouchStart_nextId (st : State) : (elTouchStart st).nextId = st.nextId := by
  unfold elTouchStart
  split <;> rfl

lemma elTouchEnd_lockedList (st : State) : (elTouchEnd st).lockedList = st.lockedList := by
  unfold elTouchEnd
  split <;> rfl

lemma elTouchEnd_elListeners (st : State) :
    (elTouchEnd st).elListeners = st.elListeners := by
  unfold elTouchEnd
  split <;> rfl

lemma elTouchEnd_overRangeEventMap (st : State) :
    (elTouchEnd st).overRangeEventMap = st.overRangeEventMap := by
  unfold elTouchEnd
  split <;> rfl

lemma elTouchEnd_nextId (st : State) : (elTouchEnd st).nextId = st.nextId := by
  unfold elTouchEnd
  split <;> rfl

lemma elTouchEnd_eventInit (st : State) : (elTouchEnd st).eventInit = false := by
  unfold elTouchEnd
  split
  · rfl
  · next h => simpa using h

lemma elTouchEnd_of_eventInit_false {st : State} (h : st.eventInit = false) :
    elTouchEnd st = st := by
  unfold elTouchEnd
  rw [if_neg]
  simp [h]

lemma attachFold_eventInit (els : List Elem) (st : State) :
    (els.foldl overRangeAttachStep st).eventInit = st.eventInit := by
  induction els generalizing st with
  | nil => rfl
  | cons e els ih => rw [List.foldl_cons, ih]; rfl

lemma attachFold_docListeners (els : List Elem) (st : State) :
    (els.foldl overRangeAttachStep st).docListeners = st.docListeners := by
  induction els generalizing st with
  | nil => rfl
  | cons e els ih => rw [List.foldl_cons, ih]; rfl

lemma attachFold_lockedList (els : List Elem) (st : State) :
    (els.foldl overRangeAttachStep st).lockedList = st.lockedList := by
  induction els generalizing st with
  | nil => rfl
  | cons e els ih => rw [List.foldl_cons, ih]; rfl

lemma detachStep_eventInit (st : State) (e : Elem) :
    (overRangeDetachStep st e).eventInit = st.eventInit := by
  unfold overRangeDetachStep
  cases mapGet st.overRangeEventMap e <;> rfl

lemma detachStep_docListeners (st : State) (e : Elem) :
    (overRangeDetachStep st e).docListeners = st.docListeners := by
  unfold overRangeDetachStep
  cases mapGet st.overRangeEventMap e <;> rfl

lemma detachStep_lockedList (st : State) (e : Elem) :
    (overRangeDetachStep st e).lockedList = st.lockedList := by
  unfold overRangeDetachStep
  cases mapGet st.overRangeEventMap e <;> rfl

lemma detachStep_nextId (st : State) (e : Elem) :
    (overRangeDetachStep st e).nextId = st.nextId := by
  unfold overRangeDetachStep
  cases mapGet st.overRangeEventMap e <;> rfl

lemma detachFold_eventInit (els : List Elem) (st : State) :
    (els.foldl overRangeDetachStep st).eventInit = st.eventInit := by
  induction els generalizing st with
  | nil => rfl
  | cons e els ih => rw [List.foldl_cons, ih, detachStep_eventInit]

lemma detachFold_docListeners (els : List Elem) (st : State) :
    (els.foldl overRangeDetachStep st).docListeners = st.docListeners := by
  induction els generalizing st with
  | nil => rfl
  | cons e els ih => rw [List.foldl_cons, ih, detachStep_docListeners]

lemma detachFold_lockedList (els : List Elem) (st : State) :
    (els.foldl overRangeDetachStep st).lockedList = st.lockedList := by
  induction els generalizing st with
  | nil => rfl
  | cons e els ih => rw [List.foldl_cons, ih, detachStep_lockedList]

lemma detachFold_nextId (els : List Elem) (st : State) :
    (els.foldl overRangeDetachStep st).nextId = st.nextId := by
  induction els generalizing st with
  | nil => rfl
  | cons e els ih => rw [List.foldl_cons, ih, detachStep_nextId]

lemma lock_lockedList (env : Env) (i : Inst) (st : State) :
    (lock env i st).lockedList = setAdd st.lockedList i := by
  unfold lock
  split
  · rfl
  · rw [lockScrollWhenOverRange, attachFold_lockedList]
    rfl

lemma lock_eventInit (env : Env) (i : Inst) (st : State) :
    (lock env i st).eventInit = st.eventInit := by
  unfold lock
  split
  · rfl
  · rw [lockScrollWhenOverRange, attachFold_eventInit]
    rfl

lemma lock_docListeners (env : Env) (i : Inst) (st : State) :
    (lock env i st).docListeners = st.docListeners := by
  unfold lock
  split
  · rfl
  · rw [lockScrollWhenOverRange, attachFold_docListeners]
    rfl

lemma unbindTouchEvents_lockedList (qsa : String → List Elem) (i : Inst) (st : State) :
    (unbindTouchEvents qsa i st).lockedList = st.lockedList := by
  unfold unbindTouchEvents
  rw [elTouchEnd_lockedList]

lemma unbindTouchEvents_overRangeEventMap (qsa : String → List Elem) (i : Inst)
    (st : State) :
    (unbindTouchEvents qsa i st).overRangeEventMap = st.overRangeEventMap := by
  unfold unbindTouchEvents
  rw [elTouchEnd_overRangeEventMap]

lemma unbindTouchEvents_eventInit (qsa : String → List Elem) (i : Inst) (st : State) :
    (unbindTouchEvents qsa i st).eventInit = false := by
  unfold unbindTouchEvents
  rw [elTouchEnd_eventInit]

lemma unbindTouchEvents_nextId (qsa : String → List Elem) (i : Inst) (st : State) :
    (unbindTouchEvents qsa i st).nextId = st.nextId + 2 := by
  unfold unbindTouchEvents
  rw [elTouchEnd_nextId]

lemma unlock_lockedList (env : Env) (i : Inst) (st : State) :
    (unlock env i st).lockedList = setDelete st.lockedList i := by
  unfold unlock
  split
  · rfl
  · rw [unlockScrollWhenOverRange, detachFold_lockedList, unbindTouchEvents_lockedList]

lemma unlock_eventInit_of_hasDoc {env : Env} (i : Inst) (st : State)
    (hdoc : env.hasDoc = true) : (unlock env i st).eventInit = false := by
  unfold unlock
  rw [if_neg (by simp [hdoc])]
  rw [unlockScrollWhenOverRange, detachFold_eventInit, unbindTouchEvents_eventInit]

lemma docOk_st0 : DocOk st0 := by
  simp [DocOk, st0]

lemma docListeners_eq_nil {st : State} (h : DocOk st) (h2 : st.eventInit = false) :
    st.docListeners = [] := by
  unfold DocOk at h
  rw [h2] at h
  simpa using h

lemma docListeners_eq_canceller {st : State} (h : DocOk st) (h2 : st.eventInit = true) :
    st.docListeners = [(EvType.touchmove, 0)] := by
  unfold DocOk at h
  rw [h2] at h
  simpa using h

lemma docOk_elTouchStart {st : State} (h : DocOk st) : DocOk (elTouchStart st) := by
  unfold elTouchStart
  split
  · next hinit =>
    have hnil := docListeners_eq_nil h hinit
    unfold DocOk
    simp [hnil, addListener]
  · exact h

lemma docOk_elTouchEnd {st : State} (h : DocOk st) : DocOk (elTouchEnd st) := by
  unfold elTouchEnd
  split
  · next hinit =>
    have hc := docListeners_eq_canceller h hinit
    unfold DocOk
    simp [hc, removeListener]
  · exact h

lemma docOk_bind (qsa : String → List Elem) (i : Inst) {st : State} (h : DocOk st) :
    DocOk (bindTouchEvents qsa i st) := h

lemma docOk_unbind (qsa : String → List Elem) (i : Inst) {st : State} (h : DocOk st) :
    DocOk (unbindTouchEvents qsa i st) := by
  unfold unbindTouchEvents
  exact docOk_elTouchEnd h

lemma docOk_lockScroll (qsa : String → List Elem) (i : Inst) {st : State}
    (h : DocOk st) : DocOk (lockScrollWhenOverRange qsa i st) := by
  unfold lockScrollWhenOverRange DocOk
  rw [attachFold_docListeners, attachFold_eventInit]
  exact h

lemma docOk_unlockScroll (qsa : String → List Elem) (i : Inst) {st : State}
    (h : DocOk st) : DocOk (unlockScrollWhenOverRange qsa i st) := by
  unfold unlockScrollWhenOverRange DocOk
  rw [detachFold_docListeners, detachFold_eventInit]
  exact h

lemma docOk_lock (env : Env) (i : Inst) {st : State} (h : DocOk st) :
    DocOk (lock env i st) := by
  unfold lock
  split
  · exact h
  · exact docOk_lockScroll env.qsa i (docOk_bind env.qsa i h)

lemma docOk_unlock (env : Env) (i : Inst) {st : State} (h : DocOk st) :
    DocOk (unlock env i st) := by
  unfold unlock
  split
  · exact h
  · exact docOk_unlockScroll env.qsa i (docOk_unbind env.qsa i h)

lemma docOk_step (env : Env) {st : State} (h : DocOk st) (e : Ev) :
    DocOk (step env st e) := by
  cases e with
  | lockEv i => exact docOk_lock env i h
  | unlockEv i => exact docOk_unlock env i h
  | touchStartEv => exact docOk_elTouchStart h
  | touchEndEv => exact docOk_elTouchEnd h

lemma docOk_run (env : Env) (evs : List Ev) (st : State) (h : DocOk st) :
    DocOk (run env st evs) := by
  induction evs generalizing st with
  | nil => exact h
  | cons e evs ih => exact ih (step env st e) (docOk_step env h e)

lemma step_mem_lockedList (env : Env) (i : Inst) (st : State) (e : Ev) :
    decide (i ∈ (step env st e).lockedList) =
      lastLockUpd i (decide (i ∈ st.lockedList)) e := by
  cases e with
  | lockEv j =>
    show decide (i ∈ (lock env j st).lockedList) = _
    rw [lock_lockedList]
    by_cases hj : j = i
    · subst hj
      simp [lastLockUpd, mem_setAdd]
    · have hij : ¬ i = j := fun hh => hj hh.symm
      simp [lastLockUpd, hj, decide_eq_decide, mem_setAdd, hij]
  | unlockEv j =>
    show decide (i ∈ (unlock env j st).lockedList) = _
    rw [unlock_lockedList]
    by_cases hj : j = i
    · subst hj
      simp [lastLockUpd, mem_setDelete]
    · have hij : ¬ i = j := fun hh => hj hh.symm
      simp [lastLockUpd, hj, decide_eq_decide, mem_setDelete, hij]
  | touchStartEv =>
    show decide (i ∈ (elTouchStart st).lockedList) = _
    rw [elTouchStart_lockedList]
    rfl
  | touchEndEv =>
    show decide (i ∈ (elTouchEnd st).lockedList) = _
    rw [elTouchEnd_lockedList]
    rfl

lemma run_mem_lockedList (env : Env) (i : Inst) (evs : List Ev) (st : State) :
    decide (i ∈ (run env st evs).lockedList) =
      evs.foldl (lastLockUpd i) (decide (i ∈ st.lockedList)) := by
  induction evs generalizing st with
  | nil => rfl
  | cons e evs ih =>
    rw [run, List.foldl_cons, List.foldl_cons, ← step_mem_lockedList]
    exact ih (step env st e)

/-- C1: over any sequence of lifecycle and gesture events, an instance is in
the process-wide registry `lockedList` exactly when its most recent lifecycle
call was `lock()`; and calling `lock()` (respectively `unlock()`) twice in a
row leaves the registry size the same as a single call. -/
theorem registry_matches_last_lifecycle (env : Env) (i : Inst) (evs : List Ev) :
    ((i ∈ (run env st0 evs).lockedList) ↔ lastLock i evs = true) ∧
    (run env st0 (evs ++ [Ev.lockEv i, Ev.lockEv i])).lockedList.length =
      (run env st0 (evs ++ [Ev.lockEv i])).lockedList.length ∧
    (run env st0 (evs ++ [Ev.unlockEv i, Ev.unlockEv i])).lockedList.length =
      (run env st0 (evs ++ [Ev.unlockEv i])).lockedList.length := by
  refine ⟨?_, ?_, ?_⟩
  · have h : decide (i ∈ (run env st0 evs).lockedList) = lastLock i evs := by
      have h1 := run_mem_lockedList env i evs st0
      have h0 : decide (i ∈ st0.lockedList) = false := by simp [st0]
      rw [h0] at h1
      exact h1
    constructor
    · intro hm
      rw [lastLock.eq_def] at h ⊢
      rw [← h]
      exact decide_eq_true hm
    · intro hl
      exact of_decide_eq_true (by rw [h]; exact hl)
  · have heq : (run env st0 (evs ++ [Ev.lockEv i, Ev.lockEv i])).lockedList =
        (run env st0 (evs ++ [Ev.lockEv i])).lockedList := by
      rw [run, run, List.foldl_append, List.foldl_append]
      simp only [List.foldl_cons, List.foldl_nil]
      show (lock env i (lock env i (run env st0 evs))).lockedList =
        (lock env i (run env st0 evs)).lockedList
      rw [lock_lockedList, lock_lockedList, setAdd_idem]
    rw [heq]
  · have heq : (run env st0 (evs ++ [Ev.unlockEv i, Ev.unlockEv i])).lockedList =
        (run env st0 (evs ++ [Ev.unlockEv i])).lockedList := by
      rw [run, run, List.foldl_append, List.foldl_append]
      simp only [List.foldl_cons, List.foldl_nil]
      show (unlock env i (unlock env i (run env st0 evs))).lockedList =
        (unlock env i (run env st0 evs)).lockedList
      rw [unlock_lockedList, unlock_lockedList, setDelete_idem]
    rw [heq]

/-- C2: after any call to `unlock()` in a context where a document exists, the
global interceptor is uninstalled: `eventInit` is `false` and the static
document-level `touchmove` canceller is detached, regardless of whether a
`touchend` event fired naturally beforehand. -/
theorem unlock_uninstalls_interceptor (env : Env) (i : Inst) (evs : List Ev)
    (hdoc : env.hasDoc = true) :
    (unlock env i (run env st0 evs)).eventInit = false ∧
    (EvType.touchmove, 0) ∉ (unlock env i (run env st0 evs)).docListeners := by
  have hdocok : DocOk (unlock env i (run env st0 evs)) :=
    docOk_unlock env i (docOk_run env evs st0 docOk_st0)
  have hinit := unlock_eventInit_of_hasDoc i (run env st0 evs) hdoc
  refine ⟨hinit, ?_⟩
  rw [docListeners_eq_nil hdocok hinit]
  simp

/-- Witness for C2: a concrete run in which the interceptor was installed by a
gesture start and no `touchend` ever fired; `unlock()` still uninstalls it. -/
theorem unlock_uninstalls_interceptor_check :
    (unlock envW instA (run envW st0 [Ev.lockEv instA, Ev.touchStartEv])).eventInit = false ∧
    (EvType.touchmove, 0) ∉
      (unlock envW instA (run envW st0 [Ev.lockEv instA, Ev.touchStartEv])).docListeners :=
  unlock_uninstalls_interceptor envW instA [Ev.lockEv instA, Ev.touchStartEv] rfl

/-- C5: the interceptor flag is a two-state machine starting uninstalled: on a
gesture start the document-level canceller is attached and the flag set only
when currently uninstalled (no-op when installed); on a gesture end it is
detached only when currently installed (no-op when uninstalled); hence at most
one document-level attachment exists after any event sequence. -/
theorem interceptor_flag_two_state (env : Env) (evs : List Ev) :
    ((run env st0 evs).eventInit = true →
      elTouchStart (run env st0 evs) = run env st0 evs) ∧
    ((run env st0 evs).eventInit = false →
      (elTouchStart (run env st0 evs)).eventInit = true ∧
      (elTouchStart (run env st0 evs)).docListeners = [(EvType.touchmove, 0)]) ∧
    ((run env st0 evs).eventInit = false →
      elTouchEnd (run env st0 evs) = run env st0 evs) ∧
    ((run env st0 evs).eventInit = true →
      (elTouchEnd (run env st0 evs)).eventInit = false ∧
      (elTouchEnd (run env st0 evs)).docListeners = []) ∧
    (run env st0 evs).docListeners.length ≤ 1 := by
  have h : DocOk (run env st0 evs) := docOk_run env evs st0 docOk_st0
  refine ⟨?_, ?_, ?_, ?_, ?_⟩
  · intro hinit
    unfold elTouchStart
    rw [if_neg]
    simp [hinit]
  · intro hinit
    have hnil := docListeners_eq_nil h hinit
    unfold elTouchStart
    rw [if_pos hinit]
    simp [hnil, addListener]
  · exact elTouchEnd_of_eventInit_false
  · intro hinit
    have hc := docListeners_eq_canceller h hinit
    refine ⟨elTouchEnd_eventInit _, ?_⟩
    unfold elTouchEnd
    rw [if_pos hinit]
    simp [hc, removeListener]
  · unfold DocOk at h
    rw [h]
    cases hinit : (run env st0 evs).eventInit <;> simp

/-- Witness for C5: starting uninstalled, a gesture start installs the
canceller; after it, a gesture end leaves the document listener list empty. -/
theorem interceptor_flag_two_state_check :
    (elTouchStart (run envW st0 [])).eventInit = true ∧
    (elTouchEnd (run envW st0 [Ev.touchStartEv])).docListeners = [] :=
  ⟨((interceptor_flag_two_state envW []).2.1 rfl).1,
   ((interceptor_flag_two_state envW [Ev.touchStartEv]).2.2.2.1 (by decide)).2⟩

lemma mabs_eq_abs (x : Int) : mabs x = |x| := by
  unfold mabs
  split
  · next h => exact (abs_of_neg h).symm
  · next h => exact (abs_of_nonneg (le_of_not_lt h)).symm

/-- C3: for the boundary tracker of a permitted element, a `touchstart` with
exactly one active touch records that touch's client coordinates as the
origin; a `touchmove` with exactly one active touch suppresses the default
action iff both offsets are below the 3px threshold, or the gesture is
vertical-dominant and pinned at the top or bottom boundary in the offset's
direction, or horizontal-dominant and pinned at the left or right boundary —
only the dominant axis is ever checked; and any event whose active-touch count
is not exactly one leaves the origin unchanged and triggers no suppression. -/
theorem boundary_tracker_decision :
    (∀ (o : Option (Int × Int)) (t : TouchPoint),
      trackerTouchStart o [t] = some (t.clientX, t.clientY)) ∧
    (∀ (o : Int × Int) (el : ScrollGeom) (t : TouchPoint),
      (trackerTouchMove (some o) el [t] = true ↔
        (|t.clientX - o.1| < 3 ∧ |t.clientY - o.2| < 3) ∨
        (|t.clientY - o.2| > |t.clientX - o.1| ∧
          ((el.scrollTop ≤ 0 ∧ t.clientY - o.2 > 0) ∨
           (el.scrollTop + el.clientHeight ≥ el.scrollHeight ∧ t.clientY - o.2 < 0))) ∨
        (|t.clientY - o.2| ≤ |t.clientX - o.1| ∧
          ((el.scrollLeft ≤ 0 ∧ t.clientX - o.1 > 0) ∨
           (el.scrollLeft + el.clientWidth ≥ el.scrollWidth ∧ t.clientX - o.1 < 0))))) ∧
    (∀ (o : Option (Int × Int)) (el : ScrollGeom) (tt : List TouchPoint),
      tt.length ≠ 1 → trackerTouchStart o tt = o ∧ trackerTouchMove o el tt = false) := by
  refine ⟨fun o t => rfl, ?_, ?_⟩
  · intro o el t
    rcases o with ⟨ox, oy⟩
    simp only [trackerTouchMove, mabs_eq_abs]
    split_ifs with h1 h2 h3 h4
    · constructor
      · intro _
        exact Or.inl h1
      · intro _
        rfl
    · constructor
      · intro _
        exact Or.inr (Or.inl ⟨h2, h3⟩)
      · intro _
        rfl
    · constructor
      · intro hf
        exact hf.elim
      · rintro (h | ⟨_, hv⟩ | ⟨hle, _⟩)
        · exact (h1 h).elim
        · exact (h3 hv).elim
        · exact (not_le.mpr h2 hle).elim
    · constructor
      · intro _
        exact Or.inr (Or.inr ⟨not_lt.mp h2, h4⟩)
      · intro _
        rfl
    · constructor
      · intro hf
        exact hf.elim
      · rintro (h | ⟨hgt, _⟩ | ⟨_, hh⟩)
        · exact (h1 h).elim
        · exact (h2 hgt).elim
        · exact (h4 hh).elim
  · intro o el tt h
    cases tt with
    | nil => exact ⟨rfl, rfl⟩
    | cons a rest =>
      cases rest with
      | nil => simp at h
      | cons b r2 => exact ⟨rfl, rfl⟩

/-- Witness for C3: with the spec's worked geometry (scrolled to the top,
300px viewport, 900px content) and origin (100,100), a single-touch move to
(100,110) is suppressed, and a move event with zero touches never is. -/
theorem boundary_tracker_decision_check :
    trackerTouchMove (some (100, 100)) geomW [⟨100, 110⟩] = true ∧
    trackerTouchMove (some (100, 100)) geomW [] = false :=
  ⟨(boundary_tracker_decision.2.1 (100, 100) geomW ⟨100, 110⟩).mpr (by decide),
   (boundary_tracker_decision.2.2 (some (100, 100)) geomW [] (by decide)).2⟩

/-- C4: the document-level interceptor handler suppresses the default action
of a `touchmove` exactly when its target is contained in no currently
permitted element, and takes no action exactly when the target is contained in
some permitted element. -/
theorem interceptor_suppression (env : Env) (locked : List Inst) (target : Elem) :
    (preventDefault env locked target = true ↔
      ∀ el ∈ getScrollEls env.qsa locked, env.contains el target = false) ∧
    (preventDefault env locked target = false ↔
      ∃ el ∈ getScrollEls env.qsa locked, env.contains el target = true) := by
  refine ⟨?_, ?_⟩ <;> simp only [preventDefault] <;> split_ifs with h
  · have hx : ∃ el ∈ getScrollEls env.qsa locked, env.contains el target = true := by
      simpa [List.any_eq_true] using h
    obtain ⟨el, hel, hc⟩ := hx
    constructor
    · intro hf
      exact hf.elim
    · intro hall
      rw [hall el hel] at hc
      exact (Bool.false_ne_true hc).elim
  · constructor
    · intro _ el hel
      by_contra hc
      apply h
      rw [List.any_eq_true]
      exact ⟨el, hel, by simpa using hc⟩
    · intro _
      rfl
  · constructor
    · intro _
      simpa [List.any_eq_true] using h
    · intro _
      rfl
  · constructor
    · intro hf
      exact absurd hf (by decide)
    · intro hex
      exact (h (by simpa [List.any_eq_true] using hex)).elim

/-- Counterexample for C8 as stated: constructing with an options object whose
`selector` is the empty string leaves the field unset (`undefined`) instead of
applying the `'.can-scroll'` default. -/
theorem constructor_empty_selector_not_defaulted :
    mkSelector (some (some (""))) = none ∧
    ¬ mkSelector (some (some (""))) = some (".can-scroll") := by
  constructor
  · rfl
  · decide

/-- C8 amended: the `selector` field equals the supplied option when it is a
non-empty string; it equals `'.can-scroll'` only when the constructor is
called with no argument at all (default parameter); an options object without
a usable selector (no `selector` key, or `selector: ''`) leaves the field
unset. -/
theorem constructor_selector_field (opt : Option (Option String)) :
    (opt = none → mkSelector opt = some (".can-scroll")) ∧
    (∀ s : String, ¬ s = "" → opt = some (some s) → mkSelector opt = some s) ∧
    ((opt = some none ∨ opt = some (some (""))) → mkSelector opt = none) := by
  refine ⟨?_, ?_, ?_⟩
  · rintro rfl
    rfl
  · rintro s hs rfl
    simp [mkSelector, hs]
  · rintro (rfl | rfl) <;> rfl

/-- Witness for C8 amended: no argument yields the default selector; a
non-empty supplied selector is stored as given. -/
theorem constructor_selector_field_check :
    mkSelector none = some (".can-scroll") ∧
    mkSelector (some (some (".x"))) = some (".x") :=
  ⟨(constructor_selector_field none).1 rfl,
   (constructor_selector_field (some (some (".x")))).2.1 (".x") (by decide) rfl⟩

lemma specDistinctFirstSeen_nil : specDistinctFirstSeen [] = [] := by
  rw [specDistinctFirstSeen]

lemma specDistinctFirstSeen_cons (s : Option String) (rest : List (Option String)) :
    specDistinctFirstSeen (s :: rest) =
      s :: specDistinctFirstSeen (rest.filter (fun x => x ≠ s)) := by
  rw [specDistinctFirstSeen]

lemma filter_not_mem_append_singleton (rest acc : List (Option String))
    (s : Option String) :
    rest.filter (fun x => decide (¬ x ∈ acc ++ [s])) =
      (rest.filter (fun x => decide (¬ x ∈ acc))).filter (fun x => x ≠ s) := by
  rw [List.filter_filter]
  refine List.filter_congr (fun x _ => ?_)
  by_cases h1 : x ∈ acc <;> by_cases h2 : x = s <;> simp [List.mem_append, h1, h2]

lemma dedup_loop_spec : ∀ (l acc : List (Option String)),
    (∀ x ∈ l, selTruthy x = true) →
    l.foldl (fun a s => if s ∈ a ∧ selTruthy s = true then a else a ++ [s]) acc =
      acc ++ specDistinctFirstSeen (l.filter (fun x => decide (¬ x ∈ acc))) := by
  intro l
  induction l with
  | nil =>
    intro acc _
    simp [specDistinctFirstSeen_nil]
  | cons s rest ih =>
    intro acc h
    have hs : selTruthy s = true := h s (by simp)
    have hrest : ∀ x ∈ rest, selTruthy x = true := fun x hx => h x (by simp [hx])
    rw [List.foldl_cons]
    by_cases hmem : s ∈ acc
    · rw [if_pos ⟨hmem, hs⟩, ih acc hrest]
      congr 2
      rw [List.filter_cons]
      simp [hmem]
    · rw [if_neg (fun hh => hmem hh.1), ih (acc ++ [s]) hrest]
      rw [List.filter_cons]
      rw [if_pos (by simp [hmem])]
      rw [specDistinctFirstSeen_cons]
      rw [List.append_assoc]
      congr 1
      rw [filter_not_mem_append_singleton]
      rfl

lemma dedupFirstSeen_spec (l : List (Option String))
    (h : ∀ x ∈ l, selTruthy x = true) :
    dedupFirstSeen l = specDistinctFirstSeen l := by
  unfold dedupFirstSeen
  rw [dedup_loop_spec l [] h]
  have hfilter : l.filter (fun x => decide (¬ x ∈ ([] : List (Option String)))) = l :=
    List.filter_eq_self.mpr (by simp)
  rw [hfilter]
  rfl

/-- Counterexample for C6 as stated: with two active instances whose selector
field was never set (reachable through the constructor, see the C8 result),
`getScrollEls` collects the unset value twice — `Array.find` returns the found
value itself, which is falsy, so the deduplication is skipped — and then
issues a document query with the selector string "," even though there is no
selector string to resolve (the claim requires an empty result with no query
when only empty-selector instances are active). -/
theorem getScrollEls_unset_selector_query :
    dedupFirstSeen [none, none] = [none, none] ∧
    queriedSelector [{ id := 100, selector := none }, { id := 101, selector := none }] =
      some (",") := by
  constructor
  · rfl
  · rfl

/-- C6 amended: the selector values of the active instances are collected in
first-seen order and deduplicated by exact equality whenever every value is a
set, non-empty string; an unset or empty found value is falsy for the
`Array.find` membership test, so such values are collected with duplicates.
The collected values are joined with ',' and resolved in a single document
query.  When the joined compound string is empty — in particular when there
are no active instances, or a single unset-selector instance — an empty result
is returned without issuing a query. -/
theorem getScrollEls_resolution (locked : List Inst) (qsa : String → List Elem) :
    ((∀ x ∈ locked.map (fun i => i.selector), selTruthy x = true) →
      dedupFirstSeen (locked.map (fun i => i.selector)) =
        specDistinctFirstSeen (locked.map (fun i => i.selector))) ∧
    (selectorStrOf locked = "" →
      queriedSelector locked = none ∧ getScrollEls qsa locked = []) ∧
    (locked = [] → selectorStrOf locked = "") ∧
    (∀ i : Inst, i.selector = none → selectorStrOf [i] = "") := by
  refine ⟨?_, ?_, ?_, ?_⟩
  · intro h
    exact dedupFirstSeen_spec _ h
  · intro h
    have hq : queriedSelector locked = none := by
      unfold queriedSelector
      rw [if_pos h]
    refine ⟨hq, ?_⟩
    unfold getScrollEls
    rw [hq]
  · rintro rfl
    rfl
  · intro i h
    have hmap : [i].map (fun j => j.selector) = [none] := by simp [h]
    unfold selectorStrOf
    rw [hmap]
    rfl

/-- Witness for C6 amended: three string-selector instances are deduplicated
in first-seen order exactly as the spec describes, and an empty registry
yields an empty result with no query. -/
theorem getScrollEls_resolution_check :
    dedupFirstSeen ([{ id := 0, selector := some (".a") },
        { id := 1, selector := some (".b") },
        { id := 2, selector := some (".a") }].map (fun i => Inst.selector i)) =
      specDistinctFirstSeen ([{ id := 0, selector := some (".a") },
        { id := 1, selector := some (".b") },
        { id := 2, selector := some (".a") }].map (fun i => Inst.selector i)) ∧
    queriedSelector [] = none ∧ getScrollEls envW.qsa [] = [] :=
  ⟨(getScrollEls_resolution [{ id := 0, selector := some (".a") },
        { id := 1, selector := some (".b") },
        { id := 2, selector := some (".a") }] envW.qsa).1 (by decide),
   ((getScrollEls_resolution [] envW.qsa).2.1 rfl).1,
   ((getScrollEls_resolution [] envW.qsa).2.1 rfl).2⟩

/-- C7 (evaluated at the failing input): with one matched element, `lock()`
attaches the gesture-start/gesture-end pair (function identities 1 and 2) and
the boundary-tracker pair (identities 3 and 4); `unlock()` removes only the
tracker pair.  The `removeEventListener` calls in `unbindTouchEvents` are made
with freshly bound function references (identities 5 and 6) that were never
attached, so the gesture-start and gesture-end listeners attached by `lock()`
remain on the element after `unlock()`. -/
theorem unlock_leaves_gesture_listeners :
    getLs (lock envW instA st0).elListeners 7 =
      [(EvType.touchstart, 1), (EvType.touchend, 2), (EvType.touchstart, 3),
        (EvType.touchmove, 4)] ∧
    getLs (unlock envW instA (lock envW instA st0)).elListeners 7 =
      [(EvType.touchstart, 1), (EvType.touchend, 2)] := by
  constructor
  · rfl
  · rfl

/-- Counterexample for C9 as stated: calling `lock()` twice in a row does not
leave the listeners of the matched element identical to a single `lock()` —
the second call attaches four additional registrations. -/
theorem double_lock_duplicates_listeners :
    ¬ getLs (lock envW instA (lock envW instA st0)).elListeners 7 =
        getLs (lock envW instA st0).elListeners 7 := by
  decide

lemma mem_getLs_exists {ls : List (Elem × List (EvType × ListenerId))} {e : Elem}
    {p : EvType × ListenerId} (h : p ∈ getLs ls e) :
    ∃ q ∈ ls, q.1 = e ∧ p ∈ q.2 := by
  induction ls with
  | nil => cases h
  | cons q rest ih =>
    obtain ⟨k, v⟩ := q
    by_cases hk : k = e
    · subst hk
      refine ⟨(k, v), by simp, rfl, ?_⟩
      simpa [getLs, assocGet] using h
    · have h' : p ∈ getLs rest e := by simpa [getLs, assocGet, hk] using h
      obtain ⟨r, hr, hre, hpr⟩ := ih h'
      exact ⟨r, by simp [hr], hre, hpr⟩

lemma mem_setLs {ls : List (Elem × List (EvType × ListenerId))} {e : Elem}
    {v : List (EvType × ListenerId)} {q : Elem × List (EvType × ListenerId)}
    (h : q ∈ setLs ls e v) : q ∈ ls ∨ q = (e, v) := by
  induction ls with
  | nil =>
    right
    simpa [setLs] using h
  | cons r rest ih =>
    obtain ⟨k, w⟩ := r
    by_cases hk : k = e
    · subst hk
      rcases by simpa [setLs] using h with h1 | h1
      · right
        exact h1
      · left
        simp [h1]
    · rcases by simpa [setLs, hk] using h with h1 | h1
      · left
        simp [h1]
      · rcases ih h1 with h2 | h2
        · left
          simp [h2]
        · right
          exact h2

lemma mapGet_none_forall : ∀ (m : List (Elem × TrackerPair)) (e : Elem),
    mapGet m e = none → ∀ q ∈ m, ¬ q.1 = e := by
  intro m e
  induction m with
  | nil => intro _ q hq; cases hq
  | cons r rest ih =>
    intro h q hq
    obtain ⟨k, w⟩ := r
    by_cases hk : k = e
    · subst hk
      simp [mapGet] at h
    · rcases List.mem_cons.mp hq with rfl | hq'
      · exact hk
      · exact ih (by simpa [mapGet, hk] using h) q hq'

lemma mapDelete_eq_self (m : List (Elem × TrackerPair)) (e : Elem) :
    mapGet m e = none → mapDelete m e = m := by
  intro h
  refine List.filter_eq_self.mpr (fun q hq => ?_)
  simp only [decide_eq_true_eq]
  exact mapGet_none_forall m e h q hq

lemma detachStep_map (st : State) (a : Elem) :
    (overRangeDetachStep st a).overRangeEventMap = mapDelete st.overRangeEventMap a := by
  unfold overRangeDetachStep
  cases mapGet st.overRangeEventMap a <;> rfl

lemma detachStep_mapnone {st : State} {e : Elem}
    (h : mapGet st.overRangeEventMap e = none) (a : Elem) :
    mapGet (overRangeDetachStep st a).overRangeEventMap e = none := by
  rw [detachStep_map]
  exact mapGet_mapDelete_none h

lemma detachFold_preserves_mapnone : ∀ (els : List Elem) (st : State) (e : Elem),
    mapGet st.overRangeEventMap e = none →
    mapGet ((els.foldl overRangeDetachStep st)).overRangeEventMap e = none := by
  intro els
  induction els with
  | nil => intro st e h; exact h
  | cons a rest ih =>
    intro st e h
    rw [List.foldl_cons]
    exact ih _ e (detachStep_mapnone h a)

lemma detachFold_mapGet_none : ∀ (els : List Elem) (st : State) (e : Elem), e ∈ els →
    mapGet ((els.foldl overRangeDetachStep st)).overRangeEventMap e = none := by
  intro els
  induction els with
  | nil => intro st e h; cases h
  | cons a rest ih =>
    intro st e hmem
    rw [List.foldl_cons]
    by_cases hea : e ∈ rest
    · exact ih _ e hea
    · have : e = a := by
        rcases List.mem_cons.mp hmem with h | h
        · exact h
        · exact absurd h hea
      subst this
      apply detachFold_preserves_mapnone
      rw [detachStep_map]
      exact mapGet_mapDelete_self _ e

lemma detachStep_notMem {st : State} {e : Elem} {t : EvType} {j : ListenerId}
    (hl : (t, j) ∉ getLs st.elListeners e)
    (hm : mapGet st.overRangeEventMap e = none) (a : Elem) :
    (t, j) ∉ getLs (overRangeDetachStep st a).elListeners e ∧
      mapGet (overRangeDetachStep st a).overRangeEventMap e = none := by
  refine ⟨?_, detachStep_mapnone hm a⟩
  unfold overRangeDetachStep
  cases hcase : mapGet st.overRangeEventMap a with
  | some p =>
    show (t, j) ∉ getLs (setLs st.elListeners a _) e
    rw [getLs_setLs]
    by_cases hea : e = a
    · rw [if_pos hea]
      subst hea
      exact not_mem_removeListener_of_not_mem (not_mem_removeListener_of_not_mem hl)
    · rw [if_neg hea]
      exact hl
  | none => exact hl

lemma detachFold_preserves_gone : ∀ (els : List Elem) (st : State) (e : Elem)
    (t : EvType) (j : ListenerId),
    (t, j) ∉ getLs st.elListeners e → mapGet st.overRangeEventMap e = none →
    (t, j) ∉ getLs (els.foldl overRangeDetachStep st).elListeners e := by
  intro els
  induction els with
  | nil => intro st e t j hl _; exact hl
  | cons a rest ih =>
    intro st e t j hl hm
    rw [List.foldl_cons]
    obtain ⟨hl', hm'⟩ := detachStep_notMem hl hm a
    exact ih _ e t j hl' hm'

lemma detachFold_removes : ∀ (els : List Elem) (st : State) (e : Elem) (p : TrackerPair),
    e ∈ els → mapGet st.overRangeEventMap e = some p →
    (EvType.touchstart, p.touchStartEvent) ∉
        getLs (els.foldl overRangeDetachStep st).elListeners e ∧
      (EvType.touchmove, p.touchMoveEvent) ∉
        getLs (els.foldl overRangeDetachStep st).elListeners e := by
  intro els
  induction els with
  | nil => intro st e p h; cases h
  | cons a rest ih =>
    intro st e p hmem hget
    rw [List.foldl_cons]
    by_cases hea : a = e
    · subst hea
      have hstep : overRangeDetachStep st a = { st with
          elListeners := setLs st.elListeners a (removeListener (removeListener
            (getLs st.elListeners a) EvType.touchstart p.touchStartEvent)
            EvType.touchmove p.touchMoveEvent),
          overRangeEventMap := mapDelete st.overRangeEventMap a } := by
        unfold overRangeDetachStep
        rw [hget]
      rw [hstep]
      have hbase : getLs (setLs st.elListeners a (removeListener (removeListener
          (getLs st.elListeners a) EvType.touchstart p.touchStartEvent)
          EvType.touchmove p.touchMoveEvent)) a = removeListener (removeListener
          (getLs st.elListeners a) EvType.touchstart p.touchStartEvent)
          EvType.touchmove p.touchMoveEvent := by
        rw [getLs_setLs, if_pos rfl]
      have h1 : (EvType.touchstart, p.touchStartEvent) ∉ getLs (setLs st.elListeners a
          (removeListener (removeListener (getLs st.elListeners a) EvType.touchstart
            p.touchStartEvent) EvType.touchmove p.touchMoveEvent)) a := by
        rw [hbase]
        exact not_mem_removeListener_of_not_mem not_mem_removeListener
      have h2 : (EvType.touchmove, p.touchMoveEvent) ∉ getLs (setLs st.elListeners a
          (removeListener (removeListener (getLs st.elListeners a) EvType.touchstart
            p.touchStartEvent) EvType.touchmove p.touchMoveEvent)) a := by
        rw [hbase]
        exact not_mem_removeListener
      have hmapafter : mapGet (mapDelete st.overRangeEventMap a) a = none :=
        mapGet_mapDelete_self _ a
      constructor
      · exact detachFold_preserves_gone rest _ a _ _ h1 hmapafter
      · exact detachFold_preserves_gone rest _ a _ _ h2 hmapafter
    · have hget' : mapGet (overRangeDetachStep st a).overRangeEventMap e = some p := by
        rw [detachStep_map, mapGet_mapDelete_ne _ (fun hh => hea hh.symm)]
        exact hget
      have hmem' : e ∈ rest := by
        rcases List.mem_cons.mp hmem with h | h
        · exact absurd h.symm hea
        · exact h
      exact ih _ e p hmem' hget'

lemma unlock_mapGet_none {env : Env} (i : Inst) (st : State)
    (hdoc : env.hasDoc = true) :
    ∀ e ∈ getCurScrollEls env.qsa i,
      mapGet (unlock env i st).overRangeEventMap e = none := by
  intro e hmem
  unfold unlock
  rw [if_neg (by simp [hdoc])]
  unfold unlockScrollWhenOverRange
  exact detachFold_mapGet_none _ _ e hmem

lemma unlock_removes_stored_pair {env : Env} (i : Inst) (st : State)
    (hdoc : env.hasDoc = true) :
    ∀ e ∈ getCurScrollEls env.qsa i, ∀ p, mapGet st.overRangeEventMap e = some p →
      (EvType.touchstart, p.touchStartEvent) ∉ getLs (unlock env i st).elListeners e ∧
      (EvType.touchmove, p.touchMoveEvent) ∉ getLs (unlock env i st).elListeners e := by
  intro e hmem p hp
  unfold unlock
  rw [if_neg (by simp [hdoc])]
  unfold unlockScrollWhenOverRange
  apply detachFold_removes _ _ e p hmem
  rw [unbindTouchEvents_overRangeEventMap]
  exact hp

/-- C10: because `overRangeEventMap` is shared process-wide and keyed only by
element, `unlock()` on one instance deletes the map entry and removes the
stored boundary-tracker `touchstart`/`touchmove` pair for every element its
own selector matches, for any state of the registry — in particular while
another still-locked instance also matches the element; concretely, after
`lock()` by one instance and `unlock()` by a different instance with the same
selector, element 7 is still permitted by the registry yet carries no
boundary-tracker listeners and the bookkeeping map is empty. -/
theorem unlock_clears_shared_tracker (env : Env) (i : Inst) (st : State)
    (hdoc : env.hasDoc = true) :
    (∀ e ∈ getCurScrollEls env.qsa i,
      mapGet (unlock env i st).overRangeEventMap e = none ∧
      ∀ p, mapGet st.overRangeEventMap e = some p →
        (EvType.touchstart, p.touchStartEvent) ∉ getLs (unlock env i st).elListeners e ∧
        (EvType.touchmove, p.touchMoveEvent) ∉ getLs (unlock env i st).elListeners e) ∧
    ((unlock envW instB (lock envW instA st0)).lockedList = [instA] ∧
      getScrollEls envW.qsa (unlock envW instB (lock envW instA st0)).lockedList = [7] ∧
      getLs (unlock envW instB (lock envW instA st0)).elListeners 7 =
        [(EvType.touchstart, 1), (EvType.touchend, 2)] ∧
      (unlock envW instB (lock envW instA st0)).overRangeEventMap = []) := by
  refine ⟨fun e hmem => ⟨unlock_mapGet_none i st hdoc e hmem,
    unlock_removes_stored_pair i st hdoc e hmem⟩, ?_, ?_, ?_, ?_⟩
  · rfl
  · rfl
  · rfl
  · rfl

/-- Witness for C10: applying the general part at a concrete state in which
`instA` holds a stored tracker pair for element 7 and `instA` then unlocks. -/
theorem unlock_clears_shared_tracker_check :
    mapGet (unlock envW instA (lock envW instA st0)).overRangeEventMap 7 = none :=
  ((unlock_clears_shared_tracker envW instA (lock envW instA st0) rfl).1 7
    (by decide)).1

lemma elTouchEnd_docListeners_of_false {st : State} (h : st.eventInit = false) :
    (elTouchEnd st).docListeners = st.docListeners := by
  rw [elTouchEnd_of_eventInit_false h]

lemma unbind_docListeners_of_false (qsa : String → List Elem) (i : Inst) {st : State}
    (h : st.eventInit = false) :
    (unbindTouchEvents qsa i st).docListeners = st.docListeners := by
  unfold unbindTouchEvents
  exact elTouchEnd_docListeners_of_false h

lemma fresh_not_mem {st : State} (h : IdsOk st) {t : EvType} {j : ListenerId}
    (hj : st.nextId ≤ j) (e : Elem) : (t, j) ∉ getLs st.elListeners e := by
  intro hmem
  obtain ⟨q, hq, _, hpq⟩ := mem_getLs_exists hmem
  have h2 : j < st.nextId := h q hq _ hpq
  exact absurd (Nat.lt_of_le_of_lt hj h2) (Nat.lt_irrefl _)

lemma removeFold_getLs_eq : ∀ (els : List Elem)
    (ls : List (Elem × List (EvType × ListenerId))) (a b : ListenerId),
    (∀ e, (EvType.touchstart, a) ∉ getLs ls e ∧ (EvType.touchend, b) ∉ getLs ls e) →
    ∀ f, getLs (els.foldl (fun acc e => setLs acc e
        (removeListener (removeListener (getLs acc e) EvType.touchstart a)
          EvType.touchend b)) ls) f = getLs ls f := by
  intro els
  induction els with
  | nil => intro ls a b _ f; rfl
  | cons e rest ih =>
    intro ls a b h f
    rw [List.foldl_cons]
    have hstep : ∀ g, getLs (setLs ls e (removeListener (removeListener (getLs ls e)
        EvType.touchstart a) EvType.touchend b)) g = getLs ls g := by
      intro g
      rw [removeListener_eq_self (h e).1, removeListener_eq_self (h e).2, getLs_setLs]
      split
      · next hge => rw [hge]
      · rfl
    rw [ih _ a b (fun e2 => ⟨by rw [hstep e2]; exact (h e2).1,
        by rw [hstep e2]; exact (h e2).2⟩) f, hstep f]

lemma unbind_elListeners (qsa : String → List Elem) (i : Inst) (st : State) :
    (unbindTouchEvents qsa i st).elListeners =
      (getCurScrollEls qsa i).foldl (fun acc e => setLs acc e
        (removeListener (removeListener (getLs acc e) EvType.touchstart st.nextId)
          EvType.touchend (st.nextId + 1))) st.elListeners := by
  unfold unbindTouchEvents
  rw [elTouchEnd_elListeners]

lemma unbind_getLs {qsa : String → List Elem} {i : Inst} {st : State} (h : IdsOk st) :
    ∀ f, getLs (unbindTouchEvents qsa i st).elListeners f = getLs st.elListeners f := by
  intro f
  rw [unbind_elListeners]
  exact removeFold_getLs_eq _ _ _ _
    (fun e => ⟨fresh_not_mem h (show st.nextId ≤ st.nextId from Nat.le_refl _) e,
      fresh_not_mem h (show st.nextId ≤ st.nextId + 1 from Nat.le_succ _) e⟩) f

lemma detachStep_eq_self {st : State} {e : Elem}
    (h : mapGet st.overRangeEventMap e = none) : overRangeDetachStep st e = st := by
  unfold overRangeDetachStep
  rw [h, mapDelete_eq_self _ _ h]

lemma detachFold_eq_self : ∀ (els : List Elem) (st : State),
    (∀ e ∈ els, mapGet st.overRangeEventMap e = none) →
    els.foldl overRangeDetachStep st = st := by
  intro els
  induction els with
  | nil => intro st _; rfl
  | cons a rest ih =>
    intro st h
    rw [List.foldl_cons, detachStep_eq_self (h a (by simp))]
    exact ih st (fun e he => h e (by simp [he]))

lemma addPair_bound {L : List (EvType × ListenerId)} {n : Nat} {t1 t2 : EvType}
    {a b : ListenerId} (hL : ∀ p ∈ L, p.2 < n) (ha : a < n) (hb : b < n) :
    ∀ p ∈ addListener (addListener L t1 a) t2 b, p.2 < n := by
  intro p hp
  rcases mem_addListener.mp hp with hp1 | hp1
  · rcases mem_addListener.mp hp1 with hp2 | hp2
    · exact hL p hp2
    · rw [hp2]
      exact ha
  · rw [hp1]
    exact hb

lemma removePair_subset {L : List (EvType × ListenerId)} {t1 t2 : EvType}
    {a b : ListenerId} :
    ∀ p ∈ removeListener (removeListener L t1 a) t2 b, p ∈ L := fun _ hp =>
  (mem_removeListener.mp (mem_removeListener.mp hp).1).1

lemma foldSetLs_bound : ∀ (els : List Elem)
    (ls : List (Elem × List (EvType × ListenerId)))
    (F : List (EvType × ListenerId) → List (EvType × ListenerId)) (n : Nat),
    (∀ L, (∀ p ∈ L, p.2 < n) → (∀ p ∈ F L, p.2 < n)) →
    (∀ q ∈ ls, ∀ p ∈ q.2, p.2 < n) →
    ∀ q ∈ els.foldl (fun acc e => setLs acc e (F (getLs acc e))) ls, ∀ p ∈ q.2, p.2 < n := by
  intro els
  induction els with
  | nil => intro ls F n _ h q hq; exact h q hq
  | cons e rest ih =>
    intro ls F n hF h
    rw [List.foldl_cons]
    apply ih _ F n hF
    intro q hq p hp
    rcases mem_setLs hq with hq1 | hq1
    · exact h q hq1 p hp
    · rw [hq1] at hp
      exact hF (getLs ls e)
        (fun r hr => by
          obtain ⟨s, hs, _, hrs⟩ := mem_getLs_exists hr
          exact h s hs r hrs) p hp

lemma idsOk_st0 : IdsOk st0 := by
  intro q hq
  exact absurd hq (List.not_mem_nil q)

lemma idsOk_elTouchStart {st : State} (h : IdsOk st) : IdsOk (elTouchStart st) := by
  intro q hq p hp
  rw [elTouchStart_nextId]
  rw [elTouchStart_elListeners] at hq
  exact h q hq p hp

lemma idsOk_elTouchEnd {st : State} (h : IdsOk st) : IdsOk (elTouchEnd st) := by
  intro q hq p hp
  rw [elTouchEnd_nextId]
  rw [elTouchEnd_elListeners] at hq
  exact h q hq p hp

lemma idsOk_bind (qsa : String → List Elem) (i : Inst) {st : State} (h : IdsOk st) :
    IdsOk (bindTouchEvents qsa i st) := by
  intro q hq p hp
  exact foldSetLs_bound (getCurScrollEls qsa i) st.elListeners
    (fun L => addListener (addListener L EvType.touchstart st.nextId)
      EvType.touchend (st.nextId + 1))
    (st.nextId + 2)
    (fun L hL => addPair_bound hL (show st.nextId < st.nextId + 2 from Nat.lt_add_of_pos_right (by decide))
      (show st.nextId + 1 < st.nextId + 2 from Nat.add_lt_add_left (by decide) st.nextId))
    (fun r hr s hs => lt_of_lt_of_le (h r hr s hs)
      (show st.nextId ≤ st.nextId + 2 from Nat.le_add_right _ 2)) q hq p hp

lemma idsOk_unbind (qsa : String → List Elem) (i : Inst) {st : State} (h : IdsOk st) :
    IdsOk (unbindTouchEvents qsa i st) := by
  intro q hq p hp
  rw [unbindTouchEvents_nextId]
  rw [unbind_elListeners] at hq
  exact foldSetLs_bound (getCurScrollEls qsa i) st.elListeners
    (fun L => removeListener (removeListener L EvType.touchstart st.nextId)
      EvType.touchend (st.nextId + 1))
    (st.nextId + 2)
    (fun L hL r hr => hL r (removePair_subset r hr))
    (fun r hr s hs => lt_of_lt_of_le (h r hr s hs)
      (show st.nextId ≤ st.nextId + 2 from Nat.le_add_right _ 2)) q hq p hp

lemma idsOk_attachStep {st : State} (h : IdsOk st) (e : Elem) :
    IdsOk (overRangeAttachStep st e) := by
  intro q hq p hp
  show p.2 < st.nextId + 2
  rcases mem_setLs hq with h1 | h1
  · exact lt_of_lt_of_le (h q h1 p hp) (show st.nextId ≤ st.nextId + 2 from Nat.le_add_right _ 2)
  · rw [h1] at hp
    rcases mem_addListener.mp hp with h2 | h2
    · rcases mem_addListener.mp h2 with h3 | h3
      · obtain ⟨r, hr, _, hpr⟩ := mem_getLs_exists h3
        exact lt_of_lt_of_le (h r hr p hpr) (show st.nextId ≤ st.nextId + 2 from Nat.le_add_right _ 2)
      · rw [h3]
        exact (show st.nextId < st.nextId + 2 from Nat.lt_add_of_pos_right (by decide))
    · rw [h2]
      exact (show st.nextId + 1 < st.nextId + 2 from Nat.add_lt_add_left (by decide) st.nextId)

lemma idsOk_attachFoldAll : ∀ (els : List Elem) (st : State), IdsOk st →
    IdsOk (els.foldl overRangeAttachStep st) := by
  intro els
  induction els with
  | nil => intro st h; exact h
  | cons e rest ih =>
    intro st h
    rw [List.foldl_cons]
    exact ih _ (idsOk_attachStep h e)

lemma idsOk_detachStep {st : State} (h : IdsOk st) (e : Elem) :
    IdsOk (overRangeDetachStep st e) := by
  intro q hq p hp
  rw [detachStep_nextId]
  unfold overRangeDetachStep at hq
  cases hcase : mapGet st.overRangeEventMap e with
  | some pr =>
    rw [hcase] at hq
    rcases mem_setLs hq with h1 | h1
    · exact h q h1 p hp
    · rw [h1] at hp
      obtain ⟨r, hr, _, hpr⟩ := mem_getLs_exists (removePair_subset p hp)
      exact h r hr p hpr
  | none =>
    rw [hcase] at hq
    exact h q hq p hp

lemma idsOk_detachFoldAll : ∀ (els : List Elem) (st : State), IdsOk st →
    IdsOk (els.foldl overRangeDetachStep st) := by
  intro els
  induction els with
  | nil => intro st h; exact h
  | cons e rest ih =>
    intro st h
    rw [List.foldl_cons]
    exact ih _ (idsOk_detachStep h e)

lemma idsOk_lock (env : Env) (i : Inst) {st : State} (h : IdsOk st) :
    IdsOk (lock env i st) := by
  unfold lock
  split
  · exact h
  · exact idsOk_attachFoldAll _ _ (idsOk_bind env.qsa i h)

lemma idsOk_unlock (env : Env) (i : Inst) {st : State} (h : IdsOk st) :
    IdsOk (unlock env i st) := by
  unfold unlock
  split
  · exact h
  · exact idsOk_detachFoldAll _ _ (idsOk_unbind env.qsa i h)

lemma unlock_noDoc {env : Env} (hd : env.hasDoc = false) (i : Inst) (st : State) :
    unlock env i st = { st with lockedList := setDelete st.lockedList i } := by
  unfold unlock
  rw [if_pos hd]

/-- C9 amended: `lock()` is idempotent with respect to registry membership,
but not with respect to listener attachment: a second `lock()` attaches a
fresh duplicate gesture pair and a fresh duplicate boundary-tracker pair to
each matched element (four additional registrations at the concrete input),
because each call binds new function references.  `unlock()` twice does equal
`unlock()` once for teardown: the second call leaves registry, interceptor
flag, document listeners, bookkeeping map, and every element's listener list
unchanged. -/
theorem lock_unlock_idempotence (env : Env) (i : Inst) (st : State) (hIds : IdsOk st) :
    (lock env i (lock env i st)).lockedList = (lock env i st).lockedList ∧
    TeardownEq (unlock env i (unlock env i st)) (unlock env i st) ∧
    (getLs (lock envW instA (lock envW instA st0)).elListeners 7).length =
      (getLs (lock envW instA st0).elListeners 7).length + 4 := by
  refine ⟨?_, ?_, by decide⟩
  · rw [lock_lockedList, lock_lockedList, setAdd_idem]
  · by_cases hd : env.hasDoc = false
    · refine ⟨?_, ?_, ?_, ?_, fun e => ?_⟩
      · rw [unlock_lockedList, unlock_lockedList, setDelete_idem]
      · rw [unlock_noDoc hd]
      · rw [unlock_noDoc hd]
      · rw [unlock_noDoc hd]
      · rw [unlock_noDoc hd]
    · have hdoc : env.hasDoc = true := by
        cases henv : env.hasDoc
        · exact absurd henv hd
        · rfl
      set u := unlock env i st with hu
      have hIds_u : IdsOk u := idsOk_unlock env i hIds
      have hev_u : u.eventInit = false := unlock_eventInit_of_hasDoc i st hdoc
      have hmap_u : ∀ e ∈ getCurScrollEls env.qsa i,
          mapGet u.overRangeEventMap e = none := unlock_mapGet_none i st hdoc
      have hIds_u1 : IdsOk { u with lockedList := setDelete u.lockedList i } :=
        fun q hq p hp => hIds_u q hq p hp
      have hx_map : (unbindTouchEvents env.qsa i
          { u with lockedList := setDelete u.lockedList i }).overRangeEventMap =
          u.overRangeEventMap := by
        rw [unbindTouchEvents_overRangeEventMap]
      have hsecond : unlock env i u = (getCurScrollEls env.qsa i).foldl
          overRangeDetachStep (unbindTouchEvents env.qsa i
            { u with lockedList := setDelete u.lockedList i }) := by
        unfold unlock unlockScrollWhenOverRange
        rw [if_neg (by simp [hdoc])]
      have hfold := detachFold_eq_self (getCurScrollEls env.qsa i)
        (unbindTouchEvents env.qsa i { u with lockedList := setDelete u.lockedList i })
        (fun e he => by rw [hx_map]; exact hmap_u e he)
      have hfinal : unlock env i u = unbindTouchEvents env.qsa i
          { u with lockedList := setDelete u.lockedList i } := hsecond.trans hfold
      refine ⟨?_, ?_, ?_, ?_, fun e => ?_⟩
      · rw [unlock_lockedList, hu, unlock_lockedList, setDelete_idem]
      · rw [hfinal, unbindTouchEvents_eventInit]
        exact hev_u.symm
      · rw [hfinal]
        exact unbind_docListeners_of_false env.qsa i hev_u
      · rw [hfinal, hx_map]
      · rw [hfinal]
        exact unbind_getLs hIds_u1 e

/-- Witness for C9 amended: from the one-element locked state, a second
`unlock()` leaves the registry and the element's listener list exactly as
after the first `unlock()`. -/
theorem lock_unlock_idempotence_check :
    (unlock envW instA (unlock envW instA (lock envW instA st0))).lockedList =
      (unlock envW instA (lock envW instA st0)).lockedList ∧
    getLs (unlock envW instA (unlock envW instA (lock envW instA st0))).elListeners 7 =
      getLs (unlock envW instA (lock envW instA st0)).elListeners 7 :=
  ⟨(lock_unlock_idempotence envW instA (lock envW instA st0)
      (idsOk_lock envW instA idsOk_st0)).2.1.1,
   (lock_unlock_idempotence envW instA (lock envW instA st0)
      (idsOk_lock envW instA idsOk_st0)).2.1.2.2.2.2 7⟩

end LockScrollModel
